import Mathlib

/-!
Verification development for the GitHub repository analyzer.

The repository splits into a Next.js presentation layer (shipped in full)
and a FastAPI aggregation backend that the repository exposes only through
documentation stubs (`backend/CRUD_OPERATIONS.md`, the Supabase DDL) and
the spec.  Definitions below are shallow embeddings: the frontend
computations (`AnalysisOverview`, `GitHubAiInput`) are translated directly
from the TypeScript source; the backend aggregators and the history store
are modelled from the spec, as flagged in their doc comments.
-/

namespace RepoAnalyzer

/-! ### Analysis data consumed by `AnalysisOverview`

Embeds the `AnalysisData` interface of the overview component.  A JS
timestamp string is modelled as `Option Int` (milliseconds since epoch):
`none` stands for an empty/absent `last_commit_date`, which is falsy in
the guard `analysisData.last_commit_date && ...`. -/

structure ActivityBucket where
  month : String
  commits : Nat
  issues : Nat
  prs : Nat
deriving Repr, DecidableEq, Inhabited

structure AnalysisData where
  total_commits : Nat
  total_contributors : Nat
  open_issues : Nat
  last_commit_date : Option Int
  commit_activity : List ActivityBucket
deriving Repr, DecidableEq

/-- The component's "active in last 30 days" test:
`last_commit_date && new Date().getTime() - new Date(last_commit_date).getTime()
 < 30 * 24 * 60 * 60 * 1000`. -/
def recentlyActive (now : Int) (d : AnalysisData) : Bool :=
  match d.last_commit_date with
  | none => false
  | some t => decide (now - t < 30 * 24 * 60 * 60 * 1000)

/-- The component's "has at least one active bucket" test:
`commit_activity?.some(m => m.commits > 0)`. -/
def hasActiveBucket (d : AnalysisData) : Bool :=
  d.commit_activity.any (fun m => decide (0 < m.commits))

/-- The health score of `AnalysisOverview`:
`Math.min(100, Math.round((total_commits > 0 ? 25 : 0) +
 (total_contributors > 1 ? 25 : 0) + (recent ? 25 : 0) + (active ? 25 : 0)))`.
The sum of integer terms makes `Math.round` the identity, so it is not
re-embedded. -/
def healthScore (now : Int) (d : AnalysisData) : Nat :=
  min 100
    ((if 0 < d.total_commits then 25 else 0) +
     (if 1 < d.total_contributors then 25 else 0) +
     (if recentlyActive now d then 25 else 0) +
     (if hasActiveBucket d then 25 else 0))

/-- Number of satisfied checks among the four boolean health checks
(spec-side counting used to state the claim about `healthScore`). -/
def numSatisfiedChecks (now : Int) (d : AnalysisData) : Nat :=
  (if 0 < d.total_commits then 1 else 0) +
  (if 1 < d.total_contributors then 1 else 0) +
  (if recentlyActive now d then 1 else 0) +
  (if hasActiveBucket d then 1 else 0)

/-! ### Commit-frequency trend of `AnalysisOverview`

`const recentMonths = analysisData.commit_activity?.slice(-2) || [];`
`slice(-2)` keeps the last two entries (the whole array when it has fewer
than two), i.e. `drop (length - 2)` with truncated subtraction. -/

def recentMonths (d : AnalysisData) : List ActivityBucket :=
  d.commit_activity.drop (d.commit_activity.length - 2)

/-- The trend value of `AnalysisOverview`:
`recentMonths.length === 2 && recentMonths[0].commits > 0
  ? ((recentMonths[1].commits - recentMonths[0].commits) / recentMonths[0].commits * 100).toFixed(0)
  : "0"`.
The numeric value before `toFixed(0)` formatting is kept as a rational;
the `"0"` branch corresponds to the rational `0`. -/
def commitTrend (d : AnalysisData) : ℚ :=
  let recent := recentMonths d
  if (recentMonths d).length = 2 ∧ 0 < ((recentMonths d).getD 0 default).commits then
    (((recent.getD 1 default).commits : ℚ) - ((recent.getD 0 default).commits : ℚ)) /
      ((recent.getD 0 default).commits : ℚ) * 100
  else 0

/-- Instrumented variant of `commitTrend` in which the division is fallible:
it returns `none` exactly when the divisor at the division site is zero.
Used to state that a division-by-zero fault is unreachable. -/
def commitTrendChecked (d : AnalysisData) : Option ℚ :=
  let recent := recentMonths d
  if (recentMonths d).length = 2 ∧ 0 < ((recentMonths d).getD 0 default).commits then
    if ((recent.getD 0 default).commits : ℚ) = 0 then none
    else some
      ((((recent.getD 1 default).commits : ℚ) - ((recent.getD 0 default).commits : ℚ)) /
        ((recent.getD 0 default).commits : ℚ) * 100)
  else some 0

/-! ### `GitHubAiInput.handleSubmit`

JS strings are modelled as `List Char` so that the embedding is fully
executable; `value.trim()` removes leading and trailing whitespace. -/

def jsTrim (s : List Char) : List Char :=
  ((s.dropWhile Char.isWhitespace).reverse.dropWhile Char.isWhitespace).reverse

/-- The submit handler of `GitHubAiInput`:
`if (!value.trim() || isAnalyzing) return; onAnalyze(value.trim())`.
The result models whether, and with which argument, the `onAnalyze`
callback is invoked: `none` = not invoked. -/
def handleSubmit (value : List Char) (isAnalyzing : Bool) : Option (List Char) :=
  if (jsTrim value).isEmpty || isAnalyzing then none
  else some (jsTrim value)

/-! ### Language aggregator

Modelled from the spec: the backend language aggregator is absent from the
repository (only route/documentation stubs exist); §4.2 of the spec fixes
`percentage = bytes/total_bytes*100, rounded to one decimal place`, and an
empty breakdown when `total_bytes` is 0.  Rounding to one decimal place is
`round (10 * x) / 10` over the rationals. -/

def languagePercentage (total bytes : Nat) : ℚ :=
  ((round ((bytes : ℚ) / (total : ℚ) * 100 * 10) : ℤ) : ℚ) / 10

/-- Modelled from the spec: language breakdown over a `language ↦ bytes`
mapping, represented as an association list. -/
def languageBreakdown (langs : List (String × Nat)) : List (String × ℚ) :=
  let total := (langs.map Prod.snd).sum
  if total = 0 then []
  else langs.map (fun p => (p.1, languagePercentage total p.2))

/-- Instrumented variant of `languageBreakdown` whose division is fallible:
`none` exactly when a division by zero would be performed.  Used to state
that the `total = 0` guard makes the fault unreachable. -/
def languageBreakdownChecked (langs : List (String × Nat)) :
    Option (List (String × ℚ)) :=
  let total := (langs.map Prod.snd).sum
  if total = 0 then some []
  else
    langs.mapM (fun p =>
      if (total : ℚ) = 0 then none
      else some (p.1, ((round ((p.2 : ℚ) / (total : ℚ) * 100 * 10) : ℤ) : ℚ) / 10))

/-! ### Contributor aggregator

Modelled from the spec: §4.2 sorts contributor records descending by
contribution count with a tie-break by handle lexical order, truncating to
a configurable top-N. -/

structure ContributorStat where
  login : String
  contributions : Nat
deriving Repr, DecidableEq, Inhabited

/-- The comparator realising "descending by contributions, ties ascending
by login": `a` may precede `b` iff `a` has strictly more contributions, or
equally many and a lexically no-greater handle. -/
def contributorBefore (a b : ContributorStat) : Bool :=
  decide (b.contributions < a.contributions) ||
    (a.contributions == b.contributions && decide (a.login ≤ b.login))

/-- Modelled from the spec: the contributor aggregator sorts with
`contributorBefore` and keeps the top `n`. -/
def rankContributors (n : Nat) (l : List ContributorStat) : List ContributorStat :=
  (l.mergeSort contributorBefore).take n

/-! ### Commit-activity aggregator

Modelled from the spec: §4.2 buckets commit timestamps by calendar month
(UTC), fills every month of the observed range that has no activity with a
zero-count bucket, orders buckets chronologically ascending, and emits an
empty sequence when there is no commit data.  A calendar month is modelled
as its index `year * 12 + (month - 1)`, so consecutive months differ by 1;
each observed commit timestamp is given by its month index. -/

def minMonth : List Nat → Nat
  | [] => 0
  | t :: rest => rest.foldl min t

def maxMonth : List Nat → Nat
  | [] => 0
  | t :: rest => rest.foldl max t

/-- Modelled from the spec: the commit-activity series, as
`(month index, commit count)` pairs covering every month from the first to
the last observed commit. -/
def activitySeries (ts : List Nat) : List (Nat × Nat) :=
  match ts with
  | [] => []
  | _ :: _ =>
    (List.range (maxMonth ts + 1 - minMonth ts)).map
      (fun i => (minMonth ts + i, ts.count (minMonth ts + i)))

/-! ### History store adapter

Modelled from the spec and from the shipped storage artefacts: the
`analysis_history` DDL (`id SERIAL PRIMARY KEY`, no uniqueness on
`repo_url`) and `CRUD_OPERATIONS.md`.  §4.4 of the spec: `create` always
inserts a new row (history, not an upsert cache); `deleteById` removes the
row or fails with `NotFound`.  The row type carries the documented columns
of `analysis_history`. -/

structure AnalysisRow where
  repo_name : String
  repo_url : String
  owner : String
  stars : Nat
  forks : Nat
  total_commits : Nat
  total_contributors : Nat
  primary_language : Option String
deriving Repr, DecidableEq, Inhabited

/-- The history store: a serial id counter (the `SERIAL` column) and the
stored rows keyed by their assigned ids. -/
structure HistoryStore where
  nextId : Nat
  rows : List (Nat × AnalysisRow)
deriving Repr, DecidableEq

inductive StoreError where
  | notFound
deriving Repr, DecidableEq

/-- Modelled from the spec: `create` inserts a fresh row under the next
serial id, never touching existing rows. -/
def createAnalysis (st : HistoryStore) (a : AnalysisRow) : HistoryStore × Nat :=
  (⟨st.nextId + 1, st.rows ++ [(st.nextId, a)]⟩, st.nextId)

/-- Modelled from the spec: `getById` returns the stored row for `id`. -/
def getById (st : HistoryStore) (id : Nat) : Option AnalysisRow :=
  (st.rows.find? (fun r => r.1 == id)).map Prod.snd

/-- Modelled from the spec: `deleteById` removes the row with the given id,
failing with `NotFound` when no such row exists. -/
def deleteById (st : HistoryStore) (id : Nat) : Except StoreError HistoryStore :=
  if st.rows.any (fun r => r.1 == id) then
    Except.ok ⟨st.nextId, st.rows.filter (fun r => r.1 != id)⟩
  else Except.error StoreError.notFound

/-- Store well-formedness: every stored id is below the serial counter.
Holds for the empty store and is preserved by the operations. -/
def StoreWF (st : HistoryStore) : Prop :=
  ∀ r ∈ st.rows, r.1 < st.nextId

/-! ### Orchestrator reference parsing

Modelled from the spec: §3 accepts URL forms `https://host/owner/name`
with an optional `.git` suffix and optional trailing slash; §4.3/§7:
`analyze` validates the reference before any network call, and
`InvalidReference` is never retried. -/

structure RepositoryReference where
  owner : List Char
  name : List Char
  url : List Char
deriving Repr, DecidableEq

/-- Split a character list on a separator character. -/
def splitOnChar (c : Char) (s : List Char) : List (List Char) :=
  s.foldr
    (fun a r =>
      match r with
      | [] => [[]]
      | g :: gs => if a = c then [] :: g :: gs else (a :: g) :: gs)
    [[]]

/-- Modelled from the spec: parse an accepted URL form
`https://host/owner/name[.git][/]` into a `RepositoryReference`;
`none` on malformed input. -/
def parseReference (url : List Char) : Option RepositoryReference :=
  if ("https://".toList).isPrefixOf url then
    let rest := url.drop 8
    let rest := if rest.getLast? = some '/' then rest.dropLast else rest
    match splitOnChar '/' rest with
    | [host, owner, name] =>
      let name :=
        if (".git".toList).isSuffixOf name then name.take (name.length - 4) else name
      if host.isEmpty || owner.isEmpty || name.isEmpty then none
      else some ⟨owner, name, url⟩
    | _ => none
  else none

inductive AnalyzeError where
  | invalidReference
  | notFound
  | rateLimited
  | transientNetwork
  | upstreamUnavailable
deriving Repr, DecidableEq

/-- Modelled from the spec (§7): only rate-limit and transient-network
errors are retried; `InvalidReference` and `NotFound` are never retried. -/
def retriable : AnalyzeError → Bool
  | AnalyzeError.rateLimited => true
  | AnalyzeError.transientNetwork => true
  | _ => false

/-- The upstream client, abstracted to the one capability `analyze` needs:
run all sub-fetches for a parsed reference.  Instantiated with mocks in
witnesses. -/
structure UpstreamClient where
  run : RepositoryReference → Except AnalyzeError AnalysisRow

/-- Modelled from the spec: `analyze` parses the reference first and fails
with `InvalidReference` on malformed input before invoking the upstream
client.  The second component counts upstream-client invocations. -/
def analyze (client : UpstreamClient) (url : List Char) :
    Except AnalyzeError AnalysisRow × Nat :=
  match parseReference url with
  | none => (Except.error AnalyzeError.invalidReference, 0)
  | some ref => (client.run ref, 1)

/-! ## Theorems -/

/-- C9: for every textarea value and analysis state, `handleSubmit` invokes
`onAnalyze` only when the trimmed value is non-empty and no analysis is in
progress, and the string passed is exactly the trimmed value; it is never
called with an empty/whitespace-only string or with untrimmed whitespace. -/
theorem handleSubmit_spec (value : List Char) (isAnalyzing : Bool) :
    (∀ s, handleSubmit value isAnalyzing = some s →
      s = jsTrim value ∧ s ≠ [] ∧ isAnalyzing = false) ∧
    (jsTrim value ≠ [] → isAnalyzing = false →
      handleSubmit value isAnalyzing = some (jsTrim value)) := by
  unfold handleSubmit
  constructor
  · intro s hs
    by_cases he : (jsTrim value).isEmpty <;> cases isAnalyzing <;>
      simp_all [List.isEmpty_iff]
  · intro hne hb
    subst hb
    simp [List.isEmpty_iff, hne]

/-- C9 witness: a concrete submission with surrounding whitespace passes
the trimmed value to `onAnalyze`. -/
theorem handleSubmit_spec_witness :
    handleSubmit " https://github.com/o/r ".toList false =
      some "https://github.com/o/r".toList := by
  have h := (handleSubmit_spec " https://github.com/o/r ".toList false).2
    (by decide) rfl
  rw [h]
  decide

/-- C1: the health score equals 25 times the number of satisfied checks
among the four boolean checks, hence always lies in {0, 25, 50, 75, 100};
for a repository with zero commits (whose activity series is empty) the
"has commits" and "active bucket" components contribute 0, leaving only
the contributor and recency components. -/
theorem healthScore_spec (now : Int) (d : AnalysisData) :
    healthScore now d = 25 * numSatisfiedChecks now d ∧
    healthScore now d ∈ ([0, 25, 50, 75, 100] : List ℕ) ∧
    (d.total_commits = 0 → d.commit_activity = [] →
      healthScore now d =
        (if 1 < d.total_contributors then 25 else 0) +
        (if recentlyActive now d then 25 else 0)) := by
  refine ⟨?_, ?_, ?_⟩
  · unfold healthScore numSatisfiedChecks
    split_ifs <;> decide
  · unfold healthScore
    split_ifs <;> decide
  · intro h0 he
    unfold healthScore
    simp only [h0, he, hasActiveBucket, List.any_nil]
    split_ifs <;> simp_all

/-- C1 witness: concrete record with two satisfied checks (contributors
and recency) and zero commits. -/
theorem healthScore_spec_witness :
    healthScore 1000 ⟨0, 3, 0, some 500, []⟩ = 50 := by
  have h := (healthScore_spec 1000 ⟨0, 3, 0, some 500, []⟩).2.2 rfl rfl
  rw [h]
  decide

/-- C10: the commit-frequency trend is computed as a percentage change
exactly when the activity series has at least two buckets and the
second-to-last bucket's commit count is strictly positive; otherwise it is
0 (rendered as the string "0"); the division is always guarded, so the
fallible variant never faults. -/
theorem commitTrend_spec (d : AnalysisData) :
    commitTrendChecked d = some (commitTrend d) ∧
    (2 ≤ d.commit_activity.length ∧
        0 < (d.commit_activity.getD (d.commit_activity.length - 2) default).commits →
      commitTrend d =
        (((d.commit_activity.getD (d.commit_activity.length - 1) default).commits : ℚ) -
            ((d.commit_activity.getD (d.commit_activity.length - 2) default).commits : ℚ)) /
          ((d.commit_activity.getD (d.commit_activity.length - 2) default).commits : ℚ) *
          100) ∧
    (¬(2 ≤ d.commit_activity.length ∧
        0 < (d.commit_activity.getD (d.commit_activity.length - 2) default).commits) →
      commitTrend d = 0) := by
  have hlen : (recentMonths d).length =
      d.commit_activity.length - (d.commit_activity.length - 2) := by
    simp [recentMonths]
  have hget0 : (recentMonths d).getD 0 default =
      d.commit_activity.getD (d.commit_activity.length - 2) default := by
    simp [recentMonths, List.getD_eq_getElem?_getD, List.getElem?_drop]
  have hget1 : (recentMonths d).getD 1 default =
      d.commit_activity.getD (d.commit_activity.length - 2 + 1) default := by
    simp [recentMonths, List.getD_eq_getElem?_getD, List.getElem?_drop]
  by_cases h2 : 2 ≤ d.commit_activity.length
  · have hl2 : (recentMonths d).length = 2 := by rw [hlen]; omega
    have hidx : d.commit_activity.length - 2 + 1 = d.commit_activity.length - 1 := by
      omega
    obtain ⟨a, b, hab⟩ := List.length_eq_two.mp hl2
    have ha : d.commit_activity.getD (d.commit_activity.length - 2) default = a := by
      rw [← hget0, hab]; rfl
    have hb : d.commit_activity.getD (d.commit_activity.length - 1) default = b := by
      rw [← hidx, ← hget1, hab]; rfl
    by_cases hc : 0 < a.commits
    · have hc' :
          0 < (d.commit_activity.getD (d.commit_activity.length - 2) default).commits := by
        rw [ha]; exact hc
      have hcast : (a.commits : ℚ) ≠ 0 :=
        Nat.cast_ne_zero.mpr (Nat.pos_iff_ne_zero.mp hc)
      refine ⟨?_, fun _ => ?_, fun hn => absurd ⟨h2, hc'⟩ hn⟩
      · simp [commitTrendChecked, commitTrend, hab, hc, hcast]
      · rw [ha, hb]
        simp [commitTrend, hab, hc]
    · have hc' :
          ¬0 < (d.commit_activity.getD (d.commit_activity.length - 2) default).commits := by
        rw [ha]; exact hc
      refine ⟨?_, fun hcc => absurd hcc.2 hc', fun _ => ?_⟩
      · simp [commitTrendChecked, commitTrend, hab, hc]
      · simp [commitTrend, hab, hc]
  · have hl2 : (recentMonths d).length ≠ 2 := by rw [hlen]; omega
    refine ⟨?_, fun hcc => absurd hcc.1 h2, fun _ => ?_⟩
    · simp [commitTrendChecked, commitTrend, hl2]
    · simp [commitTrend, hl2]

/-- C10 witness: a two-bucket series with positive second-to-last count
yields the percentage change (4 → 6 commits is +50%). -/
theorem commitTrend_spec_witness :
    commitTrend ⟨10, 2, 0, none, [⟨"Jan", 4, 0, 0⟩, ⟨"Feb", 6, 0, 0⟩]⟩ = 50 := by
  have h := (commitTrend_spec
    ⟨10, 2, 0, none, [⟨"Jan", 4, 0, 0⟩, ⟨"Feb", 6, 0, 0⟩]⟩).2.1 (by decide)
  rw [h]
  norm_num

/-- One-decimal rounding moves a rational by at most 1/20 (0.05). -/
lemma round_tenth_err (x : ℚ) : |((round (x * 10) : ℤ) : ℚ) / 10 - x| ≤ 1 / 20 := by
  have h : |(x * 10) - round (x * 10)| ≤ 1 / 2 := abs_sub_round (x * 10)
  rw [abs_sub_comm] at h
  have : ((round (x * 10) : ℤ) : ℚ) / 10 - x = (((round (x * 10) : ℤ) : ℚ) - x * 10) / 10 := by
    ring
  rw [this, abs_div]
  rw [show |(10 : ℚ)| = 10 by norm_num]
  linarith

/-- Summing pointwise-close functions over a list keeps the sums within
`length * c` of each other. -/
lemma abs_sum_sub_sum_le {α : Type} (l : List α) (f g : α → ℚ) (c : ℚ)
    (h : ∀ x ∈ l, |f x - g x| ≤ c) :
    |(l.map f).sum - (l.map g).sum| ≤ l.length * c := by
  induction l with
  | nil => simp
  | cons x xs ih =>
    simp only [List.map_cons, List.sum_cons, List.length_cons]
    have h1 := h x (List.mem_cons_self x xs)
    have h2 := ih (fun y hy => h y (List.mem_cons_of_mem _ hy))
    have hsplit : f x + (xs.map f).sum - (g x + (xs.map g).sum) =
        (f x - g x) + ((xs.map f).sum - (xs.map g).sum) := by ring
    rw [hsplit]
    calc |(f x - g x) + ((xs.map f).sum - (xs.map g).sum)|
        ≤ |f x - g x| + |(xs.map f).sum - (xs.map g).sum| := abs_add _ _
      _ ≤ c + xs.length * c := add_le_add h1 h2
      _ = (xs.length + 1) * c := by ring
      _ = ((xs.length + 1 : ℕ) : ℚ) * c := by push_cast; ring

/-- The exact (pre-rounding) percentages sum to `total * c`. -/
lemma sum_map_snd_mul (l : List (String × Nat)) (c : ℚ) :
    (l.map (fun p => (p.2 : ℚ) * c)).sum = (((l.map Prod.snd).sum : ℕ) : ℚ) * c := by
  induction l with
  | nil => simp
  | cons x xs ih =>
    simp only [List.map_cons, List.sum_cons]
    rw [ih]
    push_cast
    ring

/-- C2 counterexample: five languages with bytes 2006, 2006, 2006, 2006,
1976 (total 10000) give one-decimal percentages 20.1 ×4 and 19.8, summing
to 100.2 — outside the claimed 0.1 tolerance. -/
theorem languageBreakdown_sum_tol_counterexample :
    ¬|((languageBreakdown
        [("A", 2006), ("B", 2006), ("C", 2006), ("D", 2006), ("E", 1976)]).map
          Prod.snd).sum - 100| ≤ 1 / 10 := by
  norm_num [languageBreakdown, languagePercentage, round_eq]
  rw [show |(1 : ℚ) / 5| = 1 / 5 by norm_num]
  norm_num

/-- C2 amended: for a mapping with positive total, each language gets
`bytes/total*100` rounded to one decimal and the percentages sum to 100
within 0.05 per language (0.1 for a two-language mapping); the scenario
{Go: 800, Markdown: 200} yields {Go: 80.0, Markdown: 20.0}. -/
theorem languageBreakdown_sum_bound (langs : List (String × Nat))
    (h : 0 < (langs.map Prod.snd).sum) :
    |((languageBreakdown langs).map Prod.snd).sum - 100| ≤ (langs.length : ℚ) / 20 ∧
    languageBreakdown [("Go", 800), ("Markdown", 200)] =
      [("Go", 80), ("Markdown", 20)] := by
  constructor
  · set T := (langs.map Prod.snd).sum with hT
    have hT0 : T ≠ 0 := Nat.pos_iff_ne_zero.mp h
    have hTQ : (T : ℚ) ≠ 0 := Nat.cast_ne_zero.mpr hT0
    have hbd : languageBreakdown langs =
        langs.map (fun p => (p.1, languagePercentage T p.2)) := by
      rw [languageBreakdown, if_neg hT0]
    have hmap : (languageBreakdown langs).map Prod.snd =
        langs.map (fun p => languagePercentage T p.2) := by
      rw [hbd, List.map_map]
      rfl
    have hexact : (langs.map (fun p => (p.2 : ℚ) * (100 / T))).sum = 100 := by
      rw [sum_map_snd_mul, ← hT]
      field_simp
    have hclose : ∀ p ∈ langs,
        |languagePercentage T p.2 - (p.2 : ℚ) * (100 / T)| ≤ 1 / 20 := by
      intro p _
      have hx : (p.2 : ℚ) * (100 / T) = (p.2 : ℚ) / (T : ℚ) * 100 := by ring
      rw [hx]
      exact round_tenth_err ((p.2 : ℚ) / (T : ℚ) * 100)
    have hle := abs_sum_sub_sum_le langs
      (fun p => languagePercentage T p.2) (fun p => (p.2 : ℚ) * (100 / T)) (1 / 20) hclose
    rw [hexact] at hle
    rw [hmap]
    calc |(langs.map (fun p => languagePercentage T p.2)).sum - 100|
        ≤ langs.length * (1 / 20) := hle
      _ = (langs.length : ℚ) / 20 := by ring
  · norm_num [languageBreakdown, languagePercentage, round_eq]

/-- C2 witness: the Go/Markdown mapping has positive total, and its
percentage sum is within 2/20 = 0.1 of 100. -/
theorem languageBreakdown_sum_bound_witness :
    |((languageBreakdown [("Go", 800), ("Markdown", 200)]).map Prod.snd).sum - 100| ≤
      (([("Go", 800), ("Markdown", 200)] : List (String × Nat)).length : ℚ) / 20 :=
  (languageBreakdown_sum_bound [("Go", 800), ("Markdown", 200)] (by norm_num)).1

/-- C3: a mapping whose total byte count is 0 yields the empty breakdown,
and the division-instrumented aggregator succeeds (no division-by-zero
fault is reachable: the `total = 0` guard precedes the division). -/
theorem languageBreakdown_total_zero (langs : List (String × Nat))
    (h : (langs.map Prod.snd).sum = 0) :
    languageBreakdown langs = [] ∧
    languageBreakdownChecked langs = some (languageBreakdown langs) := by
  refine ⟨?_, ?_⟩
  · rw [languageBreakdown, if_pos h]
  · rw [languageBreakdownChecked, languageBreakdown]
    simp [h]

/-- C3 witness: a mapping with one zero-byte language (total 0) produces
the empty breakdown without fault. -/
theorem languageBreakdown_total_zero_witness :
    languageBreakdown [("Empty", 0)] = [] ∧
    languageBreakdownChecked [("Empty", 0)] = some (languageBreakdown [("Empty", 0)]) :=
  languageBreakdown_total_zero [("Empty", 0)] (by norm_num)

/-- The comparator is total. -/
lemma contributorBefore_total (a b : ContributorStat) :
    contributorBefore a b || contributorBefore b a := by
  simp only [contributorBefore, Bool.or_eq_true, decide_eq_true_eq, Bool.and_eq_true,
    beq_iff_eq]
  rcases lt_trichotomy a.contributions b.contributions with h | h | h
  · exact Or.inr (Or.inl h)
  · rcases le_total a.login b.login with hl | hl
    · exact Or.inl (Or.inr ⟨h, hl⟩)
    · exact Or.inr (Or.inr ⟨h.symm, hl⟩)
  · exact Or.inl (Or.inl h)

/-- The comparator is transitive. -/
lemma contributorBefore_trans (a b c : ContributorStat)
    (hab : contributorBefore a b) (hbc : contributorBefore b c) :
    contributorBefore a c := by
  simp only [contributorBefore, Bool.or_eq_true, decide_eq_true_eq, Bool.and_eq_true,
    beq_iff_eq] at hab hbc ⊢
  rcases hab with h1 | ⟨h1, hl1⟩
  · rcases hbc with h2 | ⟨h2, _⟩
    · exact Or.inl (h2.trans h1)
    · exact Or.inl (h2 ▸ h1)
  · rcases hbc with h2 | ⟨h2, hl2⟩
    · exact Or.inl (h1 ▸ h2)
    · exact Or.inr ⟨h1.trans h2, hl1.trans hl2⟩

/-- C4: the contributor aggregator's output is sorted non-increasingly by
contribution count, adjacent equal counts being in non-decreasing lexical
order of handle — each entry relates to every later one by "strictly more
contributions, or equally many and a lexically no-greater handle"; the
ordering is therefore deterministic (the aggregator is a function of its
input). -/
theorem rankContributors_sorted (n : Nat) (l : List ContributorStat) :
    (rankContributors n l).Pairwise (fun a b =>
      b.contributions < a.contributions ∨
        (a.contributions = b.contributions ∧ a.login ≤ b.login)) := by
  have hs : (l.mergeSort contributorBefore).Pairwise
      (fun a b => contributorBefore a b = true) :=
    List.sorted_mergeSort contributorBefore_trans
      (fun a b => contributorBefore_total a b) l
  have hsub : List.Sublist (rankContributors n l) (l.mergeSort contributorBefore) :=
    List.take_sublist n (l.mergeSort contributorBefore)
  refine (List.Pairwise.sublist hsub hs).imp ?_
  intro a b hab
  simpa only [contributorBefore, Bool.or_eq_true, decide_eq_true_eq, Bool.and_eq_true,
    beq_iff_eq] using hab

lemma foldl_min_le (t : Nat) (r : List Nat) : r.foldl min t ≤ t := by
  induction r generalizing t with
  | nil => exact le_refl t
  | cons a r ih => exact le_trans (ih (min t a)) (min_le_left t a)

lemma le_foldl_max (t : Nat) (r : List Nat) : t ≤ r.foldl max t := by
  induction r generalizing t with
  | nil => exact le_refl t
  | cons a r ih => exact le_trans (le_max_left t a) (ih (max t a))

/-- C5: for a non-empty list of observed commit months, the activity
series is the contiguous chronologically-ascending month range from the
first to the last observed commit, one bucket per month (months without
activity appear with their zero count via `count`); with no commit data
the series is empty. -/
theorem activitySeries_spec (ts : List Nat) :
    (ts = [] → activitySeries ts = []) ∧
    (ts ≠ [] →
      (activitySeries ts).map Prod.fst =
          List.range' (minMonth ts) (maxMonth ts + 1 - minMonth ts) ∧
        (∀ m : Nat, m ∈ (activitySeries ts).map Prod.fst ↔
          minMonth ts ≤ m ∧ m ≤ maxMonth ts) ∧
        ((activitySeries ts).map Prod.fst).Pairwise (· < ·) ∧
        ∀ p ∈ activitySeries ts, p.2 = ts.count p.1) := by
  cases ts with
  | nil => exact ⟨fun _ => rfl, fun h => absurd rfl h⟩
  | cons t rest =>
    refine ⟨fun h => absurd h (List.cons_ne_nil t rest), fun _ => ?_⟩
    have hlohi : minMonth (t :: rest) ≤ maxMonth (t :: rest) :=
      le_trans (foldl_min_le t rest) (le_foldl_max t rest)
    have hmapfst : (activitySeries (t :: rest)).map Prod.fst =
        List.range' (minMonth (t :: rest))
          (maxMonth (t :: rest) + 1 - minMonth (t :: rest)) := by
      rw [activitySeries, List.range'_eq_map_range, List.map_map]
      rfl
    refine ⟨hmapfst, ?_, ?_, ?_⟩
    · intro m
      rw [hmapfst, List.mem_range'_1]
      omega
    · rw [hmapfst]
      exact List.pairwise_lt_range' _ _
    · intro p hp
      rw [activitySeries] at hp
      obtain ⟨i, _, rfl⟩ := List.mem_map.mp hp
      rfl

/-- C5 witness: no data gives the empty series; observed months {3, 5}
give buckets for months 3, 4, 5 (month 4 materialized). -/
theorem activitySeries_spec_witness :
    activitySeries ([] : List Nat) = [] ∧
    (activitySeries [3, 5]).map Prod.fst = [3, 4, 5] := by
  refine ⟨(activitySeries_spec []).1 rfl, ?_⟩
  have h := ((activitySeries_spec [3, 5]).2 (by decide)).1
  rw [h]
  decide

/-- A sample row used by concrete store witnesses. -/
def sampleRow : AnalysisRow :=
  ⟨"repo", "https://github.com/o/repo", "o", 1, 2, 3, 4, none⟩

/-- C6: `create` never overwrites: from any well-formed store, creating
twice for the same repository reference yields two records with distinct
identifiers, both retrievable afterwards, the row count grows by exactly
two, and every pre-existing row is retained (history semantics, not an
upsert cache). -/
theorem createAnalysis_history (st : HistoryStore) (a : AnalysisRow)
    (h : StoreWF st) :
    (createAnalysis st a).2 ≠ (createAnalysis (createAnalysis st a).1 a).2 ∧
    getById (createAnalysis (createAnalysis st a).1 a).1
      (createAnalysis st a).2 = some a ∧
    getById (createAnalysis (createAnalysis st a).1 a).1
      (createAnalysis (createAnalysis st a).1 a).2 = some a ∧
    (createAnalysis (createAnalysis st a).1 a).1.rows.length = st.rows.length + 2 ∧
    ∀ r ∈ st.rows, r ∈ (createAnalysis (createAnalysis st a).1 a).1.rows := by
  have hfind_none : ∀ id, st.nextId ≤ id →
      st.rows.find? (fun r => r.1 == id) = none := by
    intro id hid
    apply List.find?_eq_none.mpr
    intro x hx
    have hx1 := h x hx
    simp only [beq_iff_eq]
    omega
  refine ⟨by simp [createAnalysis], ?_, ?_, by simp [createAnalysis], ?_⟩
  · simp [createAnalysis, getById, List.find?_append,
      hfind_none st.nextId (le_refl _)]
  · simp [createAnalysis, getById, List.find?_append,
      hfind_none (st.nextId + 1) (Nat.le_succ _)]
  · intro r hr
    simp [createAnalysis, hr]

/-- C6 witness: two creations from the empty store produce ids 0 and 1 and
both rows are retrievable. -/
theorem createAnalysis_history_witness :
    (createAnalysis ⟨0, []⟩ sampleRow).2 ≠
        (createAnalysis (createAnalysis ⟨0, []⟩ sampleRow).1 sampleRow).2 ∧
    getById (createAnalysis (createAnalysis ⟨0, []⟩ sampleRow).1 sampleRow).1
        (createAnalysis ⟨0, []⟩ sampleRow).2 = some sampleRow := by
  have h := createAnalysis_history ⟨0, []⟩ sampleRow (by simp [StoreWF])
  exact ⟨h.1, h.2.1⟩

/-- C7: `deleteById` succeeds exactly when a record with the id exists —
then the record is gone from the result and all other rows survive — and
fails with `NotFound` when no such record exists (never a silent
success). -/
theorem deleteById_spec (st : HistoryStore) (id : Nat) :
    ((∃ r ∈ st.rows, r.1 = id) →
      ∃ st', deleteById st id = Except.ok st' ∧
        getById st' id = none ∧
        ∀ r ∈ st.rows, r.1 ≠ id → r ∈ st'.rows) ∧
    ((∀ r ∈ st.rows, r.1 ≠ id) →
      deleteById st id = Except.error StoreError.notFound) := by
  constructor
  · rintro ⟨r, hr, hrid⟩
    have hany : st.rows.any (fun r => r.1 == id) = true :=
      List.any_eq_true.mpr ⟨r, hr, by simp [hrid]⟩
    refine ⟨⟨st.nextId, st.rows.filter (fun r => r.1 != id)⟩, ?_, ?_, ?_⟩
    · rw [deleteById, if_pos hany]
    · have hfind : (st.rows.filter (fun r => r.1 != id)).find?
          (fun r => r.1 == id) = none := by
        apply List.find?_eq_none.mpr
        intro x hx
        have hmem := List.mem_filter.mp hx
        simpa using hmem.2
      simp [getById, hfind]
    · intro r' hr' hne
      exact List.mem_filter.mpr ⟨hr', by simp [hne]⟩
  · intro hall
    rw [deleteById, if_neg ?_]
    simp only [List.any_eq_true, not_exists, not_and]
    intro x hx
    simpa using hall x hx

/-- C7 witness: on a one-row store, deleting the absent id 5 yields
`NotFound`; deleting the present id 0 succeeds and removes the row. -/
theorem deleteById_spec_witness :
    deleteById ⟨2, [(0, sampleRow)]⟩ 5 = Except.error StoreError.notFound ∧
    ∃ st', deleteById ⟨2, [(0, sampleRow)]⟩ 0 = Except.ok st' ∧
      getById st' 0 = none := by
  constructor
  · exact (deleteById_spec ⟨2, [(0, sampleRow)]⟩ 5).2 (by simp)
  · obtain ⟨st', h1, h2, _⟩ :=
      (deleteById_spec ⟨2, [(0, sampleRow)]⟩ 0).1 ⟨(0, sampleRow), by simp, rfl⟩
    exact ⟨st', h1, h2⟩

/-- C8: for a malformed repository reference, `analyze` fails with
`InvalidReference` and the upstream client is invoked zero times; the
`InvalidReference` error is not retriable. -/
theorem analyze_invalid_reference (client : UpstreamClient) (url : List Char)
    (h : parseReference url = none) :
    analyze client url = (Except.error AnalyzeError.invalidReference, 0) ∧
    retriable AnalyzeError.invalidReference = false := by
  refine ⟨?_, rfl⟩
  simp [analyze, h]

/-- C8 witness: `"not-a-url"` is rejected before any upstream call, with
any client. -/
theorem analyze_invalid_reference_witness :
    analyze ⟨fun _ => Except.error AnalyzeError.notFound⟩ "not-a-url".toList =
      (Except.error AnalyzeError.invalidReference, 0) :=
  (analyze_invalid_reference ⟨fun _ => Except.error AnalyzeError.notFound⟩
    "not-a-url".toList (by decide)).1

end RepoAnalyzer
